import Mathlib

/-!
Shallow embedding of the symbol-table and relocation-resolution core
(`src/obj/symbols.rs` of decomp-toolkit) together with theorems checking the
natural-language specification against it.  Machine integers are modelled as
`Nat` with explicit truncation where the source casts (`as u32`), the
`BTreeMap<u32, Vec<usize>>` indices as key-sorted association lists, the
`HashMap<String, Vec<usize>>` name index as an association list, and fallible
operations return `Except String`.  Mutating operations that can fail after
having already written part of the state return the (possibly partially
mutated) state together with the outcome, mirroring the order of writes in the
source.
-/

/-- Object kind tag (`ObjKind`): relocatable object or final executable. -/
inductive ObjKind where
  | Relocatable
  | Executable
deriving DecidableEq

/-- Relocation kinds (`ObjRelocKind`).  The exhaustive matches in
`best_match_for_reloc` show exactly these seven variants. -/
inductive ObjRelocKind where
  | Absolute
  | PpcAddr16Hi
  | PpcAddr16Ha
  | PpcAddr16Lo
  | PpcRel24
  | PpcRel14
  | PpcEmbSda21
deriving DecidableEq

/-- Symbol scope (`ObjSymbolScope`). -/
inductive ObjSymbolScope where
  | Unknown
  | Global
  | Weak
  | Local
deriving DecidableEq

/-- Flag set over `ObjSymbolFlags` (`ObjSymbolFlagSet`): one Bool per flag bit
of the `u8` bit set. -/
structure ObjSymbolFlagSet where
  flagGlobal : Bool
  flagLocal : Bool
  flagWeak : Bool
  flagCommon : Bool
  flagHidden : Bool
  flagForceActive : Bool
  flagRelocationIgnore : Bool
deriving DecidableEq

/-- Empty flag set (no bits set). -/
def noFlags : ObjSymbolFlagSet :=
  ⟨false, false, false, false, false, false, false⟩

/-- Accessor `is_local`: tests the Local bit. -/
def ObjSymbolFlagSet.is_local (s : ObjSymbolFlagSet) : Bool := s.flagLocal

/-- Accessor `is_global`: negation of `is_local`. -/
def ObjSymbolFlagSet.is_global (s : ObjSymbolFlagSet) : Bool := !s.is_local

/-- Accessor `is_weak`: tests the Weak bit. -/
def ObjSymbolFlagSet.is_weak (s : ObjSymbolFlagSet) : Bool := s.flagWeak

/-- Accessor `is_common`: tests the Common bit. -/
def ObjSymbolFlagSet.is_common (s : ObjSymbolFlagSet) : Bool := s.flagCommon

/-- Accessor `is_hidden`: tests the Hidden bit. -/
def ObjSymbolFlagSet.is_hidden (s : ObjSymbolFlagSet) : Bool := s.flagHidden

/-- Accessor `is_force_active`: tests the ForceActive bit. -/
def ObjSymbolFlagSet.is_force_active (s : ObjSymbolFlagSet) : Bool :=
  s.flagForceActive

/-- Accessor `is_relocation_ignore`: tests the RelocationIgnore bit. -/
def ObjSymbolFlagSet.is_relocation_ignore (s : ObjSymbolFlagSet) : Bool :=
  s.flagRelocationIgnore

/-- Derived scope (`scope`): Local first, then Weak, then Global, else
Unknown. -/
def ObjSymbolFlagSet.scope (s : ObjSymbolFlagSet) : ObjSymbolScope :=
  if s.is_local then ObjSymbolScope.Local
  else if s.is_weak then ObjSymbolScope.Weak
  else if s.flagGlobal then ObjSymbolScope.Global
  else ObjSymbolScope.Unknown

/-- Scope setter (`set_scope`): clears the other scope bits before setting the
target one; Unknown clears all three. -/
def ObjSymbolFlagSet.set_scope (s : ObjSymbolFlagSet) :
    ObjSymbolScope → ObjSymbolFlagSet
  | ObjSymbolScope.Unknown =>
      { s with flagLocal := false, flagGlobal := false, flagWeak := false }
  | ObjSymbolScope.Global =>
      { s with flagLocal := false, flagWeak := false, flagGlobal := true }
  | ObjSymbolScope.Weak =>
      { s with flagLocal := false, flagGlobal := false, flagWeak := true }
  | ObjSymbolScope.Local =>
      { s with flagGlobal := false, flagWeak := false, flagLocal := true }

/-- Symbol kind (`ObjSymbolKind`). -/
inductive ObjSymbolKind where
  | Unknown
  | Function
  | Object
  | Section
deriving DecidableEq

/-- Data interpretation kind (`ObjDataKind`). -/
inductive ObjDataKind where
  | Unknown
  | Byte
  | Byte2
  | Byte4
  | Byte8
  | Float
  | Double
  | String
  | String16
  | StringTable
  | String16Table
deriving DecidableEq

/-- Symbol record (`ObjSymbol`).  `address` and `size` model `u64`, `align`
models `Option<u32>`. -/
structure ObjSymbol where
  name : String
  demangled_name : Option String
  address : Nat
  «section» : Option Nat
  size : Nat
  size_known : Bool
  flags : ObjSymbolFlagSet
  kind : ObjSymbolKind
  align : Option Nat
  data_kind : ObjDataKind
deriving DecidableEq

/-- Default symbol record (Rust `Default`). -/
def defaultSymbol : ObjSymbol :=
  { name := "", demangled_name := none, address := 0, «section» := none,
    size := 0, size_known := false, flags := noFlags,
    kind := ObjSymbolKind.Unknown, align := none,
    data_kind := ObjDataKind.Unknown }

/-- Section-relative address (`SectionAddress` from analysis::cfa): a section
index and a `u32` offset. -/
structure SectionAddress where
  «section» : Nat
  address : Nat
deriving DecidableEq

/-- Truncation of a `u64` value to `u32` (the `as u32` casts). -/
def toU32 (a : Nat) : Nat := a % 4294967296

/-- Model of `BTreeMap<u32, Vec<SymbolIndex>>::nested_push`: append the value
to the bucket at the key, inserting the key at its sorted position when
absent (a `BTreeMap` keeps keys in ascending order). -/
def nested_push : List (Nat × List Nat) → Nat → Nat → List (Nat × List Nat)
  | [], k, v => [(k, [v])]
  | (k', vs) :: rest, k, v =>
    if k < k' then (k, [v]) :: (k', vs) :: rest
    else if k = k' then (k', vs ++ [v]) :: rest
    else (k', vs) :: nested_push rest k v

/-- Bucket of an address map at a key (`BTreeMap::get`), empty when absent. -/
def nested_lookup (m : List (Nat × List Nat)) (k : Nat) : List Nat :=
  match m.find? (fun p => decide (p.1 = k)) with
  | some p => p.2
  | none => []

/-- Entries of the map with key at most `k`, in descending key order
(`BTreeMap::range(..=k).rev()`). -/
def range_le_rev (m : List (Nat × List Nat)) (k : Nat) :
    List (Nat × List Nat) :=
  (m.filter (fun p => decide (p.1 ≤ k))).reverse

/-- All indices stored in an address map, in iteration order. -/
def bucket_indices (m : List (Nat × List Nat)) : List Nat :=
  (m.map Prod.snd).flatten

/-- Model of `Vec::resize_with(section_idx + 1, BTreeMap::new)`: pad the
per-section map list with empty maps when the section index is new. -/
def section_resize (secs : List (List (Nat × List Nat))) (si : Nat) :
    List (List (Nat × List Nat)) :=
  if si < secs.length then secs
  else secs ++ List.replicate (si + 1 - secs.length) []

/-- Resize-then-push into the per-section address maps
(`symbols_by_section[section_idx].nested_push`). -/
def section_nested_push (secs : List (List (Nat × List Nat)))
    (si k v : Nat) : List (List (Nat × List Nat)) :=
  let secs2 := section_resize secs si
  secs2.set si (nested_push (secs2.getD si []) k v)

/-- Model of `HashMap<String, Vec<SymbolIndex>>::nested_push`: append the
value to the bucket at the key (bucket order of a `HashMap` is never
observed, so the entry list order is immaterial; new keys go at the end). -/
def name_nested_push : List (String × List Nat) → String → Nat →
    List (String × List Nat)
  | [], k, v => [(k, [v])]
  | (k', vs) :: rest, k, v =>
    if k' = k then (k', vs ++ [v]) :: rest
    else (k', vs) :: name_nested_push rest k v

/-- Modelled from the spec: `util/nested.rs` (`NestedVec::nested_remove`) is
not part of the given source; per §4.4 of the spec, renaming a symbol
"remove[s] the old name-index entry" for that index, so this removes the
index from the bucket stored at the key. -/
def name_nested_remove : List (String × List Nat) → String → Nat →
    List (String × List Nat)
  | [], _, _ => []
  | (k', vs) :: rest, k, v =>
    if k' = k then (k', vs.filter (fun x => decide (x ≠ v))) :: rest
    else (k', vs) :: name_nested_remove rest k v

/-- Bucket of the name map at a key, empty when absent. -/
def name_lookup (m : List (String × List Nat)) (k : String) : List Nat :=
  match m.find? (fun p => decide (p.1 = k)) with
  | some p => p.2
  | none => []

/-- Symbol table (`ObjSymbols`): the arena plus the three indices. -/
structure ObjSymbols where
  obj_kind : ObjKind
  symbols : List ObjSymbol
  symbols_by_address : List (Nat × List Nat)
  symbols_by_name : List (String × List Nat)
  symbols_by_section : List (List (Nat × List Nat))
deriving DecidableEq

/-- Arena read (`&self.symbols[idx]`); out-of-range reads resolve to the
default record (the source would panic there, which a total model cannot
express; theorems that depend on arena reads carry in-bounds hypotheses). -/
def getSym (tbl : ObjSymbols) (idx : Nat) : ObjSymbol :=
  tbl.symbols.getD idx defaultSymbol

/-- Index-building pass of the constructor `ObjSymbols::new`, one symbol at a
time in list order. -/
def new_go (idx : Nat) (syms : List ObjSymbol)
    (byAddr : List (Nat × List Nat))
    (bySec : List (List (Nat × List Nat)))
    (byName : List (String × List Nat)) :
    List (Nat × List Nat) × List (List (Nat × List Nat)) ×
      List (String × List Nat) :=
  match syms with
  | [] => (byAddr, bySec, byName)
  | s :: rest =>
    let byAddr2 := nested_push byAddr (toU32 s.address) idx
    let bySec2 :=
      match s.«section» with
      | some si => section_nested_push bySec si (toU32 s.address) idx
      | none => bySec
    let byName2 :=
      if s.name ≠ "" then name_nested_push byName s.name idx else byName
    new_go (idx + 1) rest byAddr2 bySec2 byName2

/-- Constructor `ObjSymbols::new`: builds the three indices in one pass. -/
def ObjSymbols.new (obj_kind : ObjKind) (symbols : List ObjSymbol) :
    ObjSymbols :=
  let maps := new_go 0 symbols [] [] []
  { obj_kind := obj_kind, symbols := symbols, symbols_by_address := maps.1,
    symbols_by_name := maps.2.2, symbols_by_section := maps.2.1 }

/-- Query `at_section_address`: all symbols at an exact (section, address)
pair, in insertion order. -/
def ObjSymbols.at_section_address (tbl : ObjSymbols) (section_idx : Nat)
    (addr : Nat) : List (Nat × ObjSymbol) :=
  (nested_lookup (tbl.symbols_by_section.getD section_idx []) addr).map
    (fun i => (i, getSym tbl i))

/-- Query `iter_abs`: all unsectioned symbols, ascending by global address
index. -/
def ObjSymbols.iter_abs (tbl : ObjSymbols) : List (Nat × ObjSymbol) :=
  ((bucket_indices tbl.symbols_by_address).map
      (fun i => (i, getSym tbl i))).filter
    (fun p => p.2.«section».isNone)

/-- Mutation `replace`: rejects a change of address or section (checked in
that order, before any write), updates the name index when the name differs,
and overwrites the stored record. -/
def ObjSymbols.replace (tbl : ObjSymbols) (index : Nat) (symbol : ObjSymbol) :
    Except String ObjSymbols :=
  let symbol_ref := getSym tbl index
  if symbol_ref.address = symbol.address then
    if symbol_ref.«section» = symbol.«section» then
      let by_name :=
        if symbol_ref.name ≠ symbol.name then
          let m :=
            if symbol_ref.name ≠ "" then
              name_nested_remove tbl.symbols_by_name symbol_ref.name index
            else tbl.symbols_by_name
          if symbol.name ≠ "" then name_nested_push m symbol.name index else m
        else tbl.symbols_by_name
      Except.ok { tbl with symbols := tbl.symbols.set index symbol,
                           symbols_by_name := by_name }
    else Except.error "Cannot modify section with replace_symbol"
  else Except.error "Cannot modify address with replace_symbol"

/-- Insertion `add_direct`.  The source pushes the new index into the global
address index BEFORE checking the absolute-symbol invariant, so on failure
the partially mutated table (dangling address-index entry) is returned
together with the error, exactly as the `&mut self` method leaves it. -/
def ObjSymbols.add_direct (tbl : ObjSymbols) (in_symbol : ObjSymbol) :
    ObjSymbols × Except String Nat :=
  let symbol_idx := tbl.symbols.length
  let tbl1 : ObjSymbols :=
    { tbl with symbols_by_address :=
        (nested_push tbl.symbols_by_address (toU32 in_symbol.address)
          symbol_idx) }
  match in_symbol.«section» with
  | some section_idx =>
    let tbl2 : ObjSymbols :=
      { tbl1 with symbols_by_section :=
          (section_nested_push tbl1.symbols_by_section section_idx
            (toU32 in_symbol.address) symbol_idx) }
    let tbl3 : ObjSymbols :=
      if in_symbol.name ≠ "" then
        { tbl2 with symbols_by_name :=
            (name_nested_push tbl2.symbols_by_name in_symbol.name symbol_idx) }
      else tbl2
    ({ tbl3 with symbols := tbl3.symbols ++ [in_symbol] },
      Except.ok symbol_idx)
  | none =>
    if in_symbol.address = 0 ∨ in_symbol.flags.is_common = true ∨
        tbl.obj_kind = ObjKind.Executable then
      let tbl3 : ObjSymbols :=
        if in_symbol.name ≠ "" then
          { tbl1 with symbols_by_name :=
              (name_nested_push tbl1.symbols_by_name in_symbol.name symbol_idx) }
        else tbl1
      ({ tbl3 with symbols := tbl3.symbols ++ [in_symbol] },
        Except.ok symbol_idx)
    else (tbl1, Except.error "ABS symbol in relocatable object")

/-- Match-search phase of `add`: the computation of `opt`.  The predicate on
existing symbols at the same (section, address) is same-kind or
Unknown-kind-with-auto-generated-name; for an unsectioned candidate in an
Executable table it is an exact name match over absolute symbols; for an
unsectioned candidate in a relocatable table it bails.  `iauto` is the
delegated predicate `is_auto_symbol` (its source is outside this unit). -/
def ObjSymbols.add_find (tbl : ObjSymbols) (iauto : String → Bool)
    (in_symbol : ObjSymbol) : Except String (Option (Nat × ObjSymbol)) :=
  match in_symbol.«section» with
  | some section_index =>
    Except.ok ((tbl.at_section_address section_index
        (toU32 in_symbol.address)).find?
      (fun p => decide (p.2.kind = in_symbol.kind) ||
        (decide (p.2.kind = ObjSymbolKind.Unknown) && iauto p.2.name)))
  | none =>
    if tbl.obj_kind = ObjKind.Executable then
      Except.ok (tbl.iter_abs.find? (fun p => decide (p.2.name = in_symbol.name)))
    else Except.error "ABS symbol in relocatable object"

/-- Merged record built by `add` when `replace = true` and a match exists:
candidate fields take priority; the size resolution specialises the shared
`size` computation to `replace = true` (a known-size conflict resolves to
the candidate). -/
def merge_record (in_symbol existing : ObjSymbol) : ObjSymbol :=
  { name := in_symbol.name,
    demangled_name := in_symbol.demangled_name,
    address := in_symbol.address,
    «section» := in_symbol.«section»,
    size :=
      if existing.size_known && in_symbol.size_known &&
          decide (existing.size ≠ in_symbol.size) then in_symbol.size
      else if in_symbol.size_known then in_symbol.size else existing.size,
    size_known := existing.size_known || decide (in_symbol.size ≠ 0),
    flags := in_symbol.flags,
    kind := in_symbol.kind,
    align := in_symbol.align.or existing.align,
    data_kind :=
      match in_symbol.data_kind with
      | ObjDataKind.Unknown => existing.data_kind
      | k => k }

/-- Merge-insert `add`.  On a match with `rep = false` only a
size-unknown-to-known upgrade is written; with `rep = true` the merged record
is stored through `replace` when it differs from the existing one.  Without a
match the candidate is appended through `add_direct` with `size_known`
recomputed as `size ≠ 0`. -/
def ObjSymbols.add (tbl : ObjSymbols) (iauto : String → Bool)
    (in_symbol : ObjSymbol) (rep : Bool) : ObjSymbols × Except String Nat :=
  match tbl.add_find iauto in_symbol with
  | Except.error e => (tbl, Except.error e)
  | Except.ok (some (symbol_idx, existing)) =>
    if rep then
      let new_symbol := merge_record in_symbol existing
      if existing = new_symbol then (tbl, Except.ok symbol_idx)
      else
        match tbl.replace symbol_idx new_symbol with
        | Except.ok tbl2 => (tbl2, Except.ok symbol_idx)
        | Except.error e => (tbl, Except.error e)
    else
      if in_symbol.size_known && !existing.size_known then
        match tbl.replace symbol_idx
            { existing with size := in_symbol.size, size_known := true } with
        | Except.ok tbl2 => (tbl2, Except.ok symbol_idx)
        | Except.error e => (tbl, Except.error e)
      else (tbl, Except.ok symbol_idx)
  | Except.ok none =>
    let target_symbol_idx := tbl.symbols.length
    let r := tbl.add_direct
      { in_symbol with size_known := decide (in_symbol.size ≠ 0) }
    match r.2 with
    | Except.ok _ => (r.1, Except.ok target_symbol_idx)
    | Except.error e => (r.1, Except.error e)

/-- Eligibility predicate `ObjSymbol::referenced_by`.  `ilgl` is the delegated
predicate `is_linker_generated_label` (its source is outside this unit). -/
def ObjSymbol.referenced_by (s : ObjSymbol) (ilgl : String → Bool)
    (reloc_kind : ObjRelocKind) : Bool :=
  if s.flags.is_relocation_ignore then false
  else if ilgl s.name then
    match reloc_kind with
    | ObjRelocKind.PpcAddr16Ha => true
    | ObjRelocKind.PpcAddr16Hi => true
    | ObjRelocKind.PpcAddr16Lo => true
    | _ => false
  else
    match s.kind with
    | ObjSymbolKind.Unknown => true
    | ObjSymbolKind.Function =>
      match reloc_kind with
      | ObjRelocKind.PpcEmbSda21 => false
      | _ => true
    | ObjSymbolKind.Object =>
      match reloc_kind with
      | ObjRelocKind.PpcRel14 => false
      | ObjRelocKind.PpcRel24 => false
      | _ => true
    | ObjSymbolKind.Section =>
      match reloc_kind with
      | ObjRelocKind.PpcAddr16Ha => true
      | ObjRelocKind.PpcAddr16Hi => true
      | ObjRelocKind.PpcAddr16Lo => true
      | _ => false

/-- Rank computed inside `best_match_for_reloc`'s `sort_by_key` closure
(before negation): kind/relocation-kind compatibility score plus one when the
size is non-zero. -/
def reloc_rank (reloc_kind : ObjRelocKind) (symbol : ObjSymbol) : Int :=
  let rank : Int :=
    match symbol.kind with
    | ObjSymbolKind.Function =>
      match reloc_kind with
      | ObjRelocKind.PpcAddr16Hi => 1
      | ObjRelocKind.PpcAddr16Ha => 1
      | ObjRelocKind.PpcAddr16Lo => 1
      | ObjRelocKind.Absolute => 2
      | ObjRelocKind.PpcRel24 => 2
      | ObjRelocKind.PpcRel14 => 2
      | ObjRelocKind.PpcEmbSda21 => 2
    | ObjSymbolKind.Object =>
      match reloc_kind with
      | ObjRelocKind.PpcAddr16Hi => 1
      | ObjRelocKind.PpcAddr16Ha => 1
      | ObjRelocKind.PpcAddr16Lo => 1
      | ObjRelocKind.Absolute => 2
      | ObjRelocKind.PpcRel24 => 2
      | ObjRelocKind.PpcRel14 => 2
      | ObjRelocKind.PpcEmbSda21 => 2
    | ObjSymbolKind.Unknown =>
      match reloc_kind with
      | ObjRelocKind.PpcAddr16Hi =>
        if symbol.name.startsWith ".." then 1 else 3
      | ObjRelocKind.PpcAddr16Ha =>
        if symbol.name.startsWith ".." then 1 else 3
      | ObjRelocKind.PpcAddr16Lo =>
        if symbol.name.startsWith ".." then 1 else 3
      | _ => 1
    | ObjSymbolKind.Section => -1
  if 0 < symbol.size then rank + 1 else rank

/-- Insertion step of a stable ascending sort by the negated rank (the
`sort_by_key` key is `-rank`): an element is placed before the first element
whose key is at least its own, so earlier elements with an equal key stay
first, exactly the guarantee of Rust's stable `sort_by_key`. -/
def rank_insert (reloc_kind : ObjRelocKind) (x : Nat × ObjSymbol) :
    List (Nat × ObjSymbol) → List (Nat × ObjSymbol)
  | [] => [x]
  | y :: ys =>
    if -(reloc_rank reloc_kind x.2) ≤ -(reloc_rank reloc_kind y.2) then
      x :: y :: ys
    else y :: rank_insert reloc_kind x ys

/-- Stable sort ascending by negated rank (`symbols.sort_by_key(|..| -rank)`);
insertion sort computes the same function as any stable sort. -/
def rank_sort (reloc_kind : ObjRelocKind) :
    List (Nat × ObjSymbol) → List (Nat × ObjSymbol)
  | [] => []
  | x :: xs => rank_insert reloc_kind x (rank_sort reloc_kind xs)

/-- Matcher `best_match_for_reloc`: a single-element list is returned
immediately; otherwise the head of the stable sort by descending rank. -/
def best_match_for_reloc (symbols : List (Nat × ObjSymbol))
    (reloc_kind : ObjRelocKind) : Option (Nat × ObjSymbol) :=
  if symbols.length = 1 then symbols.head?
  else (rank_sort reloc_kind symbols).head?

/-- Candidate collection of `for_relocation` at one visited address bucket:
same section as the target or no section, and eligible for the relocation
kind. -/
def eligible_at (tbl : ObjSymbols) (ilgl : String → Bool)
    (target : SectionAddress) (reloc_kind : ObjRelocKind)
    (symbol_idxs : List Nat) : List (Nat × ObjSymbol) :=
  (symbol_idxs.map (fun i => (i, getSym tbl i))).filter
    (fun p => (p.2.«section».isNone ||
        decide (p.2.«section» = some target.«section»)) &&
      p.2.referenced_by ilgl reloc_kind)

/-- Scan loop of `for_relocation` over the visited buckets (descending
address).  A bucket without an eligible best candidate is skipped; a best
candidate at the target address is returned; a sized best candidate ends the
scan, returned exactly when its span covers the target; an unsized best
candidate below the target leaves the loop running (no `break` on that path
in the source). -/
def for_relocation_go (tbl : ObjSymbols) (ilgl : String → Bool)
    (target : SectionAddress) (reloc_kind : ObjRelocKind) :
    List (Nat × List Nat) → Option (Nat × ObjSymbol)
  | [] => none
  | (_, symbol_idxs) :: rest =>
    match best_match_for_reloc (eligible_at tbl ilgl target reloc_kind
        symbol_idxs) reloc_kind with
    | none => for_relocation_go tbl ilgl target reloc_kind rest
    | some (symbol_idx, symbol) =>
      if symbol.address = target.address then some (symbol_idx, symbol)
      else if 0 < symbol.size then
        if target.address < symbol.address + symbol.size then
          some (symbol_idx, symbol)
        else none
      else for_relocation_go tbl ilgl target reloc_kind rest

/-- Relocation target resolution `for_relocation` (always `Ok` in the source,
so the `Result` wrapper is dropped): scan the global address index backward
from the target address. -/
def ObjSymbols.for_relocation (tbl : ObjSymbols) (ilgl : String → Bool)
    (target : SectionAddress) (reloc_kind : ObjRelocKind) :
    Option (Nat × ObjSymbol) :=
  for_relocation_go tbl ilgl target reloc_kind
    (range_le_rev tbl.symbols_by_address target.address)

/-- Three address-splitting relocation kinds (high, high-adjusted, low), as
grouped by the spec. -/
def is_split_kind (rk : ObjRelocKind) : Bool :=
  decide (rk = ObjRelocKind.PpcAddr16Ha) ||
  decide (rk = ObjRelocKind.PpcAddr16Hi) ||
  decide (rk = ObjRelocKind.PpcAddr16Lo)

/-- Eligibility table exactly as the claim words it, for comparison with the
source-derived `ObjSymbol.referenced_by`. -/
def referenced_by_claim (ilgl : String → Bool) (s : ObjSymbol)
    (rk : ObjRelocKind) : Bool :=
  if s.flags.flagRelocationIgnore then false
  else if ilgl s.name then is_split_kind rk
  else
    match s.kind with
    | ObjSymbolKind.Unknown => true
    | ObjSymbolKind.Function => !decide (rk = ObjRelocKind.PpcEmbSda21)
    | ObjSymbolKind.Object =>
      !(decide (rk = ObjRelocKind.PpcRel14) ||
        decide (rk = ObjRelocKind.PpcRel24))
    | ObjSymbolKind.Section => is_split_kind rk

/-- Rank table exactly as the claim words it (base rank from the table of
§4.8 plus one when `size > 0`), for comparison with the source-derived
`reloc_rank`. -/
def rank_claim (s : ObjSymbol) (rk : ObjRelocKind) : Int :=
  (match s.kind with
   | ObjSymbolKind.Function => if is_split_kind rk then 1 else 2
   | ObjSymbolKind.Object => if is_split_kind rk then 1 else 2
   | ObjSymbolKind.Unknown =>
     if is_split_kind rk ∧ ¬ s.name.startsWith ".." then 3 else 1
   | ObjSymbolKind.Section => -1) +
  (if 0 < s.size then 1 else 0)

/-- Maximum rank over a candidate list (`none` for the empty list), used to
state the first-maximal-candidate characterisation of the matcher. -/
def max_rank (rk : ObjRelocKind) : List (Nat × ObjSymbol) → Option Int
  | [] => none
  | p :: rest =>
    match max_rank rk rest with
    | none => some (reloc_rank rk p.2)
    | some m => some (max (reloc_rank rk p.2) m)

/-- Resolution procedure exactly as claim C1 words it: the scan ends at the
first visited address (descending from the target) holding at least one
eligible candidate; the ranked best candidate there is returned when its
address equals the target, or when it has non-zero size covering the target;
an uncovering sized candidate and a zero-size candidate both yield `none`. -/
def for_relocation_claim (tbl : ObjSymbols) (ilgl : String → Bool)
    (target : SectionAddress) (reloc_kind : ObjRelocKind) :
    Option (Nat × ObjSymbol) :=
  match ((range_le_rev tbl.symbols_by_address target.address).filterMap
      (fun p => best_match_for_reloc
        (eligible_at tbl ilgl target reloc_kind p.2) reloc_kind)).head? with
  | none => none
  | some (i, s) =>
    if s.address = target.address then some (i, s)
    else if 0 < s.size then
      if target.address < s.address + s.size then some (i, s) else none
    else none

/-- Resolution procedure as amended: a zero-size best candidate below the
target does not end the scan; the scan ends at the first visited address
whose best eligible candidate sits at the target address or has non-zero
size, and that candidate is the final word. -/
def for_relocation_amended (tbl : ObjSymbols) (ilgl : String → Bool)
    (target : SectionAddress) (reloc_kind : ObjRelocKind) :
    Option (Nat × ObjSymbol) :=
  match ((range_le_rev tbl.symbols_by_address target.address).filterMap
      (fun p =>
        match best_match_for_reloc
            (eligible_at tbl ilgl target reloc_kind p.2) reloc_kind with
        | none => none
        | some (i, s) =>
          if s.address = target.address ∨ 0 < s.size then some (i, s)
          else none)).head? with
  | none => none
  | some (i, s) =>
    if s.address = target.address then some (i, s)
    else if target.address < s.address + s.size then some (i, s)
    else none

/-- Pairwise strict ascending order of the keys of an address map, as a
`BTreeMap` guarantees. -/
def keys_sorted (m : List (Nat × List Nat)) : Bool :=
  match m with
  | [] => true
  | [_] => true
  | a :: b :: rest => decide (a.1 < b.1) && keys_sorted ((b :: rest))

/-- Well-formedness of the index structures a real table always has: every
arena index stored in the global or per-section address maps is in bounds,
and map keys are strictly ascending. -/
def wf_idx (tbl : ObjSymbols) : Bool :=
  (bucket_indices tbl.symbols_by_address).all
      (fun i => decide (i < tbl.symbols.length)) &&
  keys_sorted tbl.symbols_by_address &&
  tbl.symbols_by_section.all
    (fun sec =>
      (bucket_indices sec).all (fun i => decide (i < tbl.symbols.length)) &&
      keys_sorted sec)

/-- Trivial instantiation of the delegated name predicates, for concrete
evaluations. -/
def no_name (_ : String) : Bool := false

/-- Function symbol at (section 0, address 0x100) with size 0x20. -/
def symFunc : ObjSymbol :=
  { name := "funcB", demangled_name := none, address := 256,
    «section» := some 0, size := 32, size_known := true, flags := noFlags,
    kind := ObjSymbolKind.Function, align := none,
    data_kind := ObjDataKind.Unknown }

/-- Zero-size label at (section 0, address 0x108). -/
def symLabel : ObjSymbol :=
  { name := "lblA", demangled_name := none, address := 264,
    «section» := some 0, size := 0, size_known := false, flags := noFlags,
    kind := ObjSymbolKind.Unknown, align := none,
    data_kind := ObjDataKind.Unknown }

/-- Executable table holding the sized function below an unsized label. -/
def tblScan : ObjSymbols :=
  ObjSymbols.new ObjKind.Executable [symFunc, symLabel]

/-- Empty relocatable table. -/
def tblEmptyRel : ObjSymbols := ObjSymbols.new ObjKind.Relocatable []

/-- Unsectioned symbol with non-zero address and no Common flag. -/
def symAbs5 : ObjSymbol :=
  { name := "s", demangled_name := none, address := 5, «section» := none,
    size := 0, size_known := false, flags := noFlags,
    kind := ObjSymbolKind.Unknown, align := none,
    data_kind := ObjDataKind.Unknown }

/-- Candidate that merges onto `symFunc` at the same position with a new
name, a conflicting known size and an alignment. -/
def symFunc2 : ObjSymbol :=
  { name := "realFunc", demangled_name := some "real::func",
    address := 256, «section» := some 0, size := 48, size_known := true,
    flags := noFlags, kind := ObjSymbolKind.Function, align := some 8,
    data_kind := ObjDataKind.Unknown }

/-- Unknown-size duplicate of `symFunc` (for the no-replace insertion). -/
def symFuncNoSize : ObjSymbol :=
  { name := "funcB2", demangled_name := none, address := 256,
    «section» := some 0, size := 0, size_known := false, flags := noFlags,
    kind := ObjSymbolKind.Function, align := none,
    data_kind := ObjDataKind.Unknown }

/-- Table after merge-inserting `symFunc2` into `tblScan` (for the
idempotence witness). -/
def tblScan2 : ObjSymbols := (tblScan.add no_name symFunc2 true).1

/-- Flag set with only the Weak bit. -/
def fsWeakOnly : ObjSymbolFlagSet :=
  ⟨false, false, true, false, false, false, false⟩

/-- Decidable equality for `Except`, so concrete outcomes can be settled by
`decide`. -/
instance {ε α : Type} [DecidableEq ε] [DecidableEq α] :
    DecidableEq (Except ε α)
  | Except.error e1, Except.error e2 =>
    if h : e1 = e2 then Decidable.isTrue (by rw [h])
    else Decidable.isFalse (by intro hh; cases hh; exact h rfl)
  | Except.error _, Except.ok _ => Decidable.isFalse (by intro hh; cases hh)
  | Except.ok _, Except.error _ => Decidable.isFalse (by intro hh; cases hh)
  | Except.ok a1, Except.ok a2 =>
    if h : a1 = a2 then Decidable.isTrue (by rw [h])
    else Decidable.isFalse (by intro hh; cases hh; exact h rfl)

/-! ## Helper lemmas -/

theorem head?_mem {α : Type} {l : List α} {x : α} (h : l.head? = some x) :
    x ∈ l := by
  cases l with
  | nil => cases h
  | cons a t =>
    simp only [List.head?_cons, Option.some.injEq] at h
    rw [← h]; exact List.mem_cons_self a t

theorem list_getD_set_ne {α : Type} (l : List α) (i j : Nat) (a d : α)
    (h : j ≠ i) : (l.set i a).getD j d = l.getD j d := by
  have h2 : i ≠ j := fun e => h e.symm
  simp [List.getD, List.getElem?_set, h2]

theorem list_getD_set_self {α : Type} (l : List α) (i : Nat) (a d : α)
    (h : i < l.length) : (l.set i a).getD i d = a := by
  simp [List.getD, List.getElem?_set, h]

theorem list_getD_append_left {α : Type} (l1 l2 : List α) (j : Nat) (d : α)
    (h : j < l1.length) : (l1 ++ l2).getD j d = l1.getD j d := by
  simp [List.getD, List.getElem?_append, h]

theorem list_getD_append_self {α : Type} (l1 : List α) (a d : α) :
    (l1 ++ [a]).getD l1.length d = a := by
  simp [List.getD]

theorem rank_insert_mem (rk : ObjRelocKind) (x y : Nat × ObjSymbol)
    (l : List (Nat × ObjSymbol)) :
    y ∈ rank_insert rk x l ↔ y = x ∨ y ∈ l := by
  induction l with
  | nil => simp [rank_insert]
  | cons a t ih =>
    simp only [rank_insert]
    split
    · simp [List.mem_cons]
    · simp only [List.mem_cons, ih]
      constructor
      · rintro (h | h | h)
        · exact Or.inr (Or.inl h)
        · exact Or.inl h
        · exact Or.inr (Or.inr h)
      · rintro (h | h | h)
        · exact Or.inr (Or.inl h)
        · exact Or.inl h
        · exact Or.inr (Or.inr h)

theorem rank_sort_mem (rk : ObjRelocKind) (y : Nat × ObjSymbol)
    (l : List (Nat × ObjSymbol)) : y ∈ rank_sort rk l ↔ y ∈ l := by
  induction l with
  | nil => simp [rank_sort]
  | cons a t ih => simp [rank_sort, rank_insert_mem, ih]

theorem best_match_mem {l : List (Nat × ObjSymbol)} {rk : ObjRelocKind}
    {x : Nat × ObjSymbol} (h : best_match_for_reloc l rk = some x) : x ∈ l := by
  unfold best_match_for_reloc at h
  split at h
  · exact head?_mem h
  · exact (rank_sort_mem rk x l).mp (head?_mem h)

/-! ## Claim theorems -/

/-- C9: `scope()` resolves any flag combination via the fixed priority Local,
then Weak, then Global, else Unknown; `set_scope` clears the other scope bits
before setting the target one (Unknown clears all three), so the result holds
at most one scope bit, reads back as the set scope, and all non-scope bits
(Common, Hidden, ForceActive, RelocationIgnore) are unchanged. -/
theorem c9_scope_priority_and_setter :
    (∀ fs : ObjSymbolFlagSet, fs.scope =
      (if fs.flagLocal then ObjSymbolScope.Local
       else if fs.flagWeak then ObjSymbolScope.Weak
       else if fs.flagGlobal then ObjSymbolScope.Global
       else ObjSymbolScope.Unknown)) ∧
    (∀ (fs : ObjSymbolFlagSet) (s : ObjSymbolScope),
      (fs.set_scope s).scope = s ∧
      (fs.set_scope s).flagLocal.toNat + (fs.set_scope s).flagWeak.toNat +
          (fs.set_scope s).flagGlobal.toNat ≤ 1 ∧
      (fs.set_scope s).flagCommon = fs.flagCommon ∧
      (fs.set_scope s).flagHidden = fs.flagHidden ∧
      (fs.set_scope s).flagForceActive = fs.flagForceActive ∧
      (fs.set_scope s).flagRelocationIgnore = fs.flagRelocationIgnore) ∧
    (∀ fs : ObjSymbolFlagSet,
      (fs.set_scope ObjSymbolScope.Unknown).flagLocal = false ∧
      (fs.set_scope ObjSymbolScope.Unknown).flagWeak = false ∧
      (fs.set_scope ObjSymbolScope.Unknown).flagGlobal = false) := by
  refine ⟨fun fs => rfl, fun fs s => ?_, fun fs => ⟨rfl, rfl, rfl⟩⟩
  cases s <;>
    simp [ObjSymbolFlagSet.set_scope, ObjSymbolFlagSet.scope,
      ObjSymbolFlagSet.is_local, ObjSymbolFlagSet.is_weak]

/-- C10: `is_global()` is exactly the negation of `is_local()`; a Weak-only
flag set (Local clear, Global clear) is reported global with scope Weak, and
a flag set with no scope bits at all is reported global with scope Unknown. -/
theorem c10_is_global_negation :
    (∀ fs : ObjSymbolFlagSet, fs.is_global = !fs.is_local) ∧
    fsWeakOnly.flagGlobal = false ∧ fsWeakOnly.flagLocal = false ∧
    fsWeakOnly.is_global = true ∧ fsWeakOnly.scope = ObjSymbolScope.Weak ∧
    noFlags.is_global = true ∧ noFlags.scope = ObjSymbolScope.Unknown :=
  ⟨fun _ => rfl, rfl, rfl, rfl, rfl, rfl, rfl⟩

/-- C6: inserting an unsectioned, non-zero-address, non-Common symbol into a
Relocatable table fails with the absolute-symbol error through both entry
points; `add` bails before mutating, but `add_direct` pushes the dangling
arena index into the global address index before checking the invariant, so
the table is NOT left as it was: the claimed no-partial-mutation behaviour is
violated by `add_direct`. -/
theorem c6_abs_insert_partial_mutation :
    (tblEmptyRel.add no_name symAbs5 true).2 =
      Except.error "ABS symbol in relocatable object" ∧
    (tblEmptyRel.add no_name symAbs5 true).1 = tblEmptyRel ∧
    (tblEmptyRel.add_direct symAbs5).2 =
      Except.error "ABS symbol in relocatable object" ∧
    (tblEmptyRel.add_direct symAbs5).1.symbols = tblEmptyRel.symbols ∧
    (tblEmptyRel.add_direct symAbs5).1.symbols_by_name =
      tblEmptyRel.symbols_by_name ∧
    (tblEmptyRel.add_direct symAbs5).1.symbols_by_section =
      tblEmptyRel.symbols_by_section ∧
    (tblEmptyRel.add_direct symAbs5).1.symbols_by_address = [(5, [0])] ∧
    tblEmptyRel.symbols_by_address = [] ∧
    (tblEmptyRel.add_direct symAbs5).1 ≠ tblEmptyRel := by
  decide

theorem eligible_at_referenced {tbl : ObjSymbols} {ilgl : String → Bool}
    {target : SectionAddress} {rk : ObjRelocKind} {idxs : List Nat}
    {i : Nat} {s : ObjSymbol}
    (h : (i, s) ∈ eligible_at tbl ilgl target rk idxs) :
    s.referenced_by ilgl rk = true := by
  unfold eligible_at at h
  have h2 := (List.mem_filter.mp h).2
  simp only [Bool.and_eq_true] at h2
  exact h2.2

theorem for_relocation_go_referenced {tbl : ObjSymbols} {ilgl : String → Bool}
    {target : SectionAddress} {rk : ObjRelocKind} :
    ∀ (l : List (Nat × List Nat)) (i : Nat) (s : ObjSymbol),
      for_relocation_go tbl ilgl target rk l = some (i, s) →
      s.referenced_by ilgl rk = true := by
  intro l
  induction l with
  | nil => intro i s h; cases h
  | cons hd tl ih =>
    intro i s h
    obtain ⟨addr, idxs⟩ := hd
    simp only [for_relocation_go] at h
    cases hb : best_match_for_reloc (eligible_at tbl ilgl target rk idxs) rk with
    | none => rw [hb] at h; exact ih i s h
    | some p =>
      obtain ⟨j, y⟩ := p
      rw [hb] at h
      have hy := eligible_at_referenced (best_match_mem hb)
      by_cases ha : y.address = target.address
      · simp only [ha, if_true] at h
        cases h; exact hy
      · simp only [ha, if_false] at h
        by_cases hs : 0 < y.size
        · simp only [hs, if_true] at h
          by_cases hc : target.address < y.address + y.size
          · simp only [hc, if_true] at h; cases h; exact hy
          · simp only [hc, if_false] at h; cases h
        · simp only [hs, if_false] at h
          exact ih i s h

/-- C2: the eligibility predicate `referenced_by` computes exactly the table
the claim states (RelocationIgnore always refuses; a linker-generated label
is eligible only for the three address-splitting kinds; Unknown for
everything; Function for everything but EmbSda21; Object for everything but
Rel14/Rel24; Section only for the splitting kinds), and `for_relocation`
never returns a symbol this predicate refuses for the queried kind. -/
theorem c2_referenced_by_table :
    (∀ (ilgl : String → Bool) (s : ObjSymbol) (rk : ObjRelocKind),
      s.referenced_by ilgl rk = referenced_by_claim ilgl s rk) ∧
    (∀ (tbl : ObjSymbols) (ilgl : String → Bool) (target : SectionAddress)
        (rk : ObjRelocKind) (i : Nat) (s : ObjSymbol),
      tbl.for_relocation ilgl target rk = some (i, s) →
      s.referenced_by ilgl rk = true) := by
  constructor
  · intro ilgl s rk
    obtain ⟨nm, dm, ad, sec, sz, sk, fl, kd, al, dk⟩ := s
    obtain ⟨g, lo, w, c, hdn, fa, ri⟩ := fl
    simp only [ObjSymbol.referenced_by, referenced_by_claim,
      ObjSymbolFlagSet.is_relocation_ignore]
    cases ri <;> cases hi : ilgl nm <;>
      cases kd <;> cases rk <;> simp [is_split_kind]
  · intro tbl ilgl target rk i s h
    exact for_relocation_go_referenced _ i s h

/-- Witness for the implication of C2 at a concrete query: the symbol
returned by `for_relocation` on `tblScan` passes `referenced_by`. -/
theorem c2_referenced_by_table_witness :
    ObjSymbol.referenced_by symFunc no_name ObjRelocKind.Absolute = true :=
  c2_referenced_by_table.2 tblScan no_name ⟨0, 272⟩ ObjRelocKind.Absolute 0
    symFunc (by decide)

theorem max_rank_cons_eq (rk : ObjRelocKind) (x : Nat × ObjSymbol)
    {l : List (Nat × ObjSymbol)} {m : Int} (h : max_rank rk l = some m) :
    max_rank rk (x :: l) = some (max (reloc_rank rk x.2) m) := by
  simp [max_rank, h]

theorem max_rank_cons_some (rk : ObjRelocKind) (x : Nat × ObjSymbol)
    (l : List (Nat × ObjSymbol)) : ∃ m, max_rank rk (x :: l) = some m := by
  simp only [max_rank]
  cases max_rank rk l <;> exact ⟨_, rfl⟩

theorem rank_insert_ne_nil (rk : ObjRelocKind) (x : Nat × ObjSymbol)
    (l : List (Nat × ObjSymbol)) : rank_insert rk x l ≠ [] := by
  cases l with
  | nil => simp [rank_insert]
  | cons y ys =>
    simp only [rank_insert]
    split <;> simp

theorem rank_sort_head (rk : ObjRelocKind) :
    ∀ l : List (Nat × ObjSymbol),
      (rank_sort rk l).head? =
        l.find? (fun p => decide (max_rank rk l = some (reloc_rank rk p.2))) := by
  intro l
  induction l with
  | nil => rfl
  | cons x xs ih =>
    cases xs with
    | nil =>
      simp [rank_sort, rank_insert, max_rank, List.find?]
    | cons y ys =>
      obtain ⟨m, hm⟩ := max_rank_cons_some rk y ys
      obtain ⟨h, t, hht⟩ : ∃ h t, rank_sort rk (y :: ys) = h :: t := by
        cases hcase : rank_sort rk (y :: ys) with
        | nil =>
          simp only [rank_sort] at hcase
          exact absurd hcase (rank_insert_ne_nil rk y (rank_sort rk ys))
        | cons a b => exact ⟨a, b, rfl⟩
      have hhead : (y :: ys).find?
          (fun p => decide (max_rank rk (y :: ys) = some (reloc_rank rk p.2))) =
          some h := by
        rw [← ih, hht]; rfl
      have hrankh : m = reloc_rank rk h.2 := by
        have hps := List.find?_some hhead
        rw [hm] at hps
        simpa using hps
      have hall : max_rank rk (x :: y :: ys) =
          some (max (reloc_rank rk x.2) m) := max_rank_cons_eq rk x hm
      have hsx : rank_sort rk (x :: y :: ys) =
          rank_insert rk x (h :: t) := by
        simp only [rank_sort] at hht ⊢
        rw [hht]
      by_cases hc : reloc_rank rk h.2 ≤ reloc_rank rk x.2
      · have hmx : max (reloc_rank rk x.2) m = reloc_rank rk x.2 :=
          max_eq_left (by rw [hrankh]; exact hc)
        rw [hsx]
        simp only [rank_insert, neg_le_neg_iff, hc, if_true]
        rw [List.find?_cons_of_pos]
        · rfl
        · simp only [hall, hmx, decide_eq_true_eq]
      · have hlt : reloc_rank rk x.2 < reloc_rank rk h.2 :=
          lt_of_not_le hc
        have hmx : max (reloc_rank rk x.2) m = m :=
          max_eq_right (by rw [hrankh]; exact le_of_lt hlt)
        rw [hsx]
        simp only [rank_insert, neg_le_neg_iff, hc, if_false]
        simp only [List.head?_cons]
        rw [List.find?_cons_of_neg]
        · simp only [hall, hmx]
          simp only [hm] at hhead
          exact hhead.symm
        · simp only [hall, hmx, decide_eq_true_eq]
          intro he
          injection he with he2
          omega

/-- C3: `best_match_for_reloc` returns the single element of a one-element
list immediately; its rank is exactly the claim's table (1/2 for
Function/Object by relocation class, 3 or 1 for Unknown depending on the
".." internal-label prefix, -1 for Section, plus 1 when size > 0); the result
is the head of the stable sort by descending rank, hence a deterministic
function of the input that picks, among the maximal-rank candidates, the one
earliest in the input list. -/
theorem c3_best_match_characterised :
    (∀ (rk : ObjRelocKind) (x : Nat × ObjSymbol),
      best_match_for_reloc [x] rk = some x) ∧
    (∀ (rk : ObjRelocKind) (s : ObjSymbol),
      reloc_rank rk s = rank_claim s rk) ∧
    (∀ (rk : ObjRelocKind) (l : List (Nat × ObjSymbol)),
      best_match_for_reloc l rk = (rank_sort rk l).head?) ∧
    (∀ (rk : ObjRelocKind) (l : List (Nat × ObjSymbol)),
      best_match_for_reloc l rk =
        l.find? (fun p => decide (max_rank rk l = some (reloc_rank rk p.2)))) := by
  have hsorthead : ∀ (rk : ObjRelocKind) (l : List (Nat × ObjSymbol)),
      best_match_for_reloc l rk = (rank_sort rk l).head? := by
    intro rk l
    unfold best_match_for_reloc
    split
    · rename_i hlen
      cases l with
      | nil => cases hlen
      | cons a t =>
        cases t with
        | nil => simp [rank_sort, rank_insert]
        | cons b t2 => simp at hlen
    · rfl
  refine ⟨?_, ?_, hsorthead, ?_⟩
  · intro rk x
    simp [best_match_for_reloc]
  · intro rk s
    obtain ⟨nm, dm, ad, sec, sz, sk, fl, kd, al, dk⟩ := s
    simp only [reloc_rank, rank_claim, is_split_kind]
    cases kd <;> cases rk <;>
      by_cases hn : nm.startsWith ".." <;>
        by_cases hs : 0 < sz <;>
          simp [hn, hs]
  · intro rk l
    rw [hsorthead rk l]
    exact rank_sort_head rk l

theorem for_relocation_go_amended_eq (tbl : ObjSymbols) (ilgl : String → Bool)
    (target : SectionAddress) (rk : ObjRelocKind) :
    ∀ l : List (Nat × List Nat),
      for_relocation_go tbl ilgl target rk l =
        (match (l.filterMap (fun p =>
            match best_match_for_reloc (eligible_at tbl ilgl target rk p.2)
                rk with
            | none => none
            | some (i, s) =>
              if s.address = target.address ∨ 0 < s.size then some (i, s)
              else none)).head? with
         | none => none
         | some (i, s) =>
           if s.address = target.address then some (i, s)
           else if target.address < s.address + s.size then some (i, s)
           else none) := by
  intro l
  induction l with
  | nil => rfl
  | cons hd tl ih =>
    obtain ⟨addr, idxs⟩ := hd
    simp only [for_relocation_go, List.filterMap_cons]
    cases hb : best_match_for_reloc (eligible_at tbl ilgl target rk idxs)
        rk with
    | none => simp only [hb]; exact ih
    | some p =>
      obtain ⟨j, y⟩ := p
      simp only [hb]
      by_cases ha : y.address = target.address
      · simp [ha]
      · by_cases hs : 0 < y.size
        · simp [ha, hs]
        · have hcond : ¬(y.address = target.address ∨ 0 < y.size) := by
            simp [ha, hs]
          simp only [ha, if_false, hs, hcond]
          exact ih

/-- C1 as amended: `for_relocation` scans the global address index in
descending order from the target; a visited address whose best eligible
candidate is zero-size and below the target does NOT end the scan (such
candidates are skipped, contrary to the claim); the scan ends at the first
visited address whose best eligible candidate sits at the target address
(returned) or has non-zero size (returned exactly when `address + size >
target`), and `none` results when no such address exists at or below the
target. -/
theorem c1_for_relocation_amended_holds :
    ∀ (tbl : ObjSymbols) (ilgl : String → Bool) (target : SectionAddress)
      (rk : ObjRelocKind),
      tbl.for_relocation ilgl target rk =
        for_relocation_amended tbl ilgl target rk := by
  intro tbl ilgl target rk
  unfold ObjSymbols.for_relocation for_relocation_amended
  exact for_relocation_go_amended_eq tbl ilgl target rk
    (range_le_rev tbl.symbols_by_address target.address)

/-- Counterexample to C1 as stated: on `tblScan` (unsized label at 0x108
above a sized function at 0x100 spanning 0x100..0x120), resolving an
Absolute relocation at (section 0, 0x110) meets the zero-size label first —
the claim then demands `None` — yet the code skips it and returns the more
distant function below, whose address is not the target. -/
theorem c1_zero_size_stop_counterexample :
    tblScan.for_relocation no_name ⟨0, 272⟩ ObjRelocKind.Absolute =
      some (0, symFunc) ∧
    for_relocation_claim tblScan no_name ⟨0, 272⟩ ObjRelocKind.Absolute =
      none ∧
    symFunc.address ≠ 272 ∧ symLabel.address = 264 ∧ symLabel.size = 0 ∧
    symFunc.address = 256 := by
  decide

theorem mem_map_pair {l : List Nat} {f : Nat → ObjSymbol} {i : Nat}
    {x : ObjSymbol} (h : (i, x) ∈ l.map (fun j => (j, f j))) :
    f i = x ∧ i ∈ l := by
  obtain ⟨j, hj, he⟩ := List.mem_map.mp h
  obtain ⟨h1, h2⟩ := Prod.mk.injEq .. ▸ he
  constructor
  · rw [← h1]; exact h2
  · rw [← h1]; exact hj

/-- C7: `replace` rejects a change of the identity keys: it fails whenever
the replacement's address or section differs from the stored entry's (and
being pure until the checks pass, the table is untouched on failure); when
both match it succeeds, overwriting exactly the indexed record and updating
only the name index (old entry removed when the old name is non-empty, new
entry inserted when the new name is non-empty), leaving every other symbol
and the two address indices unchanged. -/
theorem c7_replace_guards (tbl : ObjSymbols) (idx : Nat) (s : ObjSymbol)
    (hidx : idx < tbl.symbols.length) :
    ((getSym tbl idx).address ≠ s.address ∨
        (getSym tbl idx).«section» ≠ s.«section» →
      ∃ e, tbl.replace idx s = Except.error e) ∧
    ((getSym tbl idx).address = s.address →
      (getSym tbl idx).«section» = s.«section» →
      tbl.replace idx s = Except.ok
        { tbl with
          symbols := tbl.symbols.set idx s,
          symbols_by_name :=
            (if (getSym tbl idx).name ≠ s.name then
              (if s.name ≠ "" then
                name_nested_push
                  (if (getSym tbl idx).name ≠ "" then
                    (name_nested_remove tbl.symbols_by_name
                      (getSym tbl idx).name idx)
                   else tbl.symbols_by_name) s.name idx
               else
                (if (getSym tbl idx).name ≠ "" then
                  (name_nested_remove tbl.symbols_by_name
                    (getSym tbl idx).name idx)
                 else tbl.symbols_by_name))
             else tbl.symbols_by_name) }) ∧
    (∀ tbl2, tbl.replace idx s = Except.ok tbl2 →
      getSym tbl2 idx = s ∧
      (∀ j, j ≠ idx → getSym tbl2 j = getSym tbl j) ∧
      tbl2.symbols_by_address = tbl.symbols_by_address ∧
      tbl2.symbols_by_section = tbl.symbols_by_section ∧
      tbl2.obj_kind = tbl.obj_kind) := by
  refine ⟨?_, ?_, ?_⟩
  · intro h
    unfold ObjSymbols.replace
    by_cases h1 : (getSym tbl idx).address = s.address
    · have h2 : (getSym tbl idx).«section» ≠ s.«section» := by
        rcases h with h | h
        · exact absurd h1 h
        · exact h
      simp [h1, h2]
    · simp [h1]
  · intro h1 h2
    simp only [ObjSymbols.replace]
    rw [if_pos h1, if_pos h2]
  · intro tbl2 h
    simp only [ObjSymbols.replace] at h
    by_cases h1 : (getSym tbl idx).address = s.address
    · rw [if_pos h1] at h
      by_cases h2 : (getSym tbl idx).«section» = s.«section»
      · rw [if_pos h2] at h
        injection h with h3
        rw [← h3]
        refine ⟨list_getD_set_self _ _ _ _ hidx, ?_, rfl, rfl, rfl⟩
        intro j hj
        exact list_getD_set_ne _ _ _ _ _ hj
      · rw [if_neg h2] at h; cases h
    · rw [if_neg h1] at h; cases h

theorem add_find_getSym {tbl : ObjSymbols} {iauto : String → Bool}
    {s : ObjSymbol} {idx : Nat} {existing : ObjSymbol}
    (h : tbl.add_find iauto s = Except.ok (some (idx, existing))) :
    getSym tbl idx = existing := by
  unfold ObjSymbols.add_find at h
  cases hsec : s.«section» with
  | some si =>
    simp only [hsec] at h
    injection h with h2
    have hmem := List.mem_of_find?_eq_some h2
    unfold ObjSymbols.at_section_address at hmem
    exact (mem_map_pair hmem).1
  | none =>
    simp only [hsec] at h
    split at h
    · injection h with h2
      have hmem := List.mem_of_find?_eq_some h2
      unfold ObjSymbols.iter_abs at hmem
      have hmem2 := (List.mem_filter.mp hmem).1
      exact (mem_map_pair hmem2).1
    · cases h

theorem replace_ok {tbl : ObjSymbols} {idx : Nat} {s : ObjSymbol}
    (h1 : (getSym tbl idx).address = s.address)
    (h2 : (getSym tbl idx).«section» = s.«section») :
    tbl.replace idx s = Except.ok
      { tbl with
        symbols := tbl.symbols.set idx s,
        symbols_by_name :=
          (if (getSym tbl idx).name ≠ s.name then
            (if s.name ≠ "" then
              name_nested_push
                (if (getSym tbl idx).name ≠ "" then
                  (name_nested_remove tbl.symbols_by_name
                    (getSym tbl idx).name idx)
                 else tbl.symbols_by_name) s.name idx
             else
              (if (getSym tbl idx).name ≠ "" then
                (name_nested_remove tbl.symbols_by_name
                  (getSym tbl idx).name idx)
               else tbl.symbols_by_name))
           else tbl.symbols_by_name) } := by
  simp only [ObjSymbols.replace]
  rw [if_pos h1, if_pos h2]

/-- Witness for C7: on the concrete table, changing the stored address fails,
and an identity-preserving replacement overwrites the record. -/
theorem c7_replace_guards_witness :
    (∃ e, tblScan.replace 0 symAbs5 = Except.error e) ∧
    tblScan.replace 0 symFunc2 = Except.ok
      { tblScan with
        symbols := tblScan.symbols.set 0 symFunc2,
        symbols_by_name :=
          (if (getSym tblScan 0).name ≠ symFunc2.name then
            (if symFunc2.name ≠ "" then
              name_nested_push
                (if (getSym tblScan 0).name ≠ "" then
                  (name_nested_remove tblScan.symbols_by_name
                    (getSym tblScan 0).name 0)
                 else tblScan.symbols_by_name) symFunc2.name 0
             else
              (if (getSym tblScan 0).name ≠ "" then
                (name_nested_remove tblScan.symbols_by_name
                  (getSym tblScan 0).name 0)
               else tblScan.symbols_by_name))
           else tblScan.symbols_by_name) } :=
  ⟨(c7_replace_guards tblScan 0 symAbs5 (by decide)).1 (by decide),
   (c7_replace_guards tblScan 0 symFunc2 (by decide)).2.1 (by decide)
     (by decide)⟩

/-- C4: on a match, `add` with `replace = true` stores at the matched index
(and returns that index) a merged record taking the candidate's name,
demangled name, address, section, flags and kind; size resolved in the
candidate's favour on a known-size conflict, otherwise the candidate's size
when known else the existing one; `size_known` true when either side knew a
size or the incoming size is non-zero; alignment the candidate's when
present else the existing one; and `data_kind` the candidate's unless
Unknown, in which case the existing one is kept. -/
theorem c4_add_replace_merges (tbl : ObjSymbols) (iauto : String → Bool)
    (s existing : ObjSymbol) (idx : Nat)
    (hfind : tbl.add_find iauto s = Except.ok (some (idx, existing)))
    (haddr : existing.address = s.address)
    (hsec : existing.«section» = s.«section»)
    (hidx : idx < tbl.symbols.length) :
    ∃ tbl2, tbl.add iauto s true = (tbl2, Except.ok idx) ∧
      getSym tbl2 idx = merge_record s existing ∧
      (merge_record s existing).name = s.name ∧
      (merge_record s existing).demangled_name = s.demangled_name ∧
      (merge_record s existing).address = s.address ∧
      (merge_record s existing).«section» = s.«section» ∧
      (merge_record s existing).flags = s.flags ∧
      (merge_record s existing).kind = s.kind ∧
      (merge_record s existing).size =
        (if existing.size_known ∧ s.size_known ∧ existing.size ≠ s.size
         then s.size
         else if s.size_known then s.size else existing.size) ∧
      (merge_record s existing).size_known =
        (existing.size_known || decide (s.size ≠ 0)) ∧
      (merge_record s existing).align = s.align.or existing.align ∧
      (merge_record s existing).data_kind =
        (match s.data_kind with
         | ObjDataKind.Unknown => existing.data_kind
         | k => k) := by
  have hex : getSym tbl idx = existing := add_find_getSym hfind
  have hsize : (merge_record s existing).size =
      (if existing.size_known ∧ s.size_known ∧ existing.size ≠ s.size
       then s.size
       else if s.size_known then s.size else existing.size) := by
    simp only [merge_record]
    by_cases ha : existing.size_known <;>
      by_cases hb : s.size_known <;>
        by_cases hc : existing.size = s.size <;>
          simp [ha, hb, hc]
  by_cases heq : existing = merge_record s existing
  · refine ⟨tbl, ?_, ?_, rfl, rfl, rfl, rfl, rfl, rfl, hsize, rfl, rfl, rfl⟩
    · simp only [ObjSymbols.add, hfind]
      rw [if_pos heq]
      simp
    · rw [hex]; exact heq
  · have h1 : (getSym tbl idx).address = (merge_record s existing).address := by
      rw [hex, haddr]; rfl
    have h2 : (getSym tbl idx).«section» =
        (merge_record s existing).«section» := by
      rw [hex, hsec]; rfl
    refine ⟨{ tbl with
        symbols := tbl.symbols.set idx (merge_record s existing),
        symbols_by_name :=
          (if (getSym tbl idx).name ≠ (merge_record s existing).name then
            (if (merge_record s existing).name ≠ "" then
              name_nested_push
                (if (getSym tbl idx).name ≠ "" then
                  (name_nested_remove tbl.symbols_by_name
                    (getSym tbl idx).name idx)
                 else tbl.symbols_by_name) (merge_record s existing).name idx
             else
              (if (getSym tbl idx).name ≠ "" then
                (name_nested_remove tbl.symbols_by_name
                  (getSym tbl idx).name idx)
               else tbl.symbols_by_name))
           else tbl.symbols_by_name) },
      ?_, ?_, rfl, rfl, rfl, rfl, rfl, rfl, hsize, rfl, rfl, rfl⟩
    · simp only [ObjSymbols.add, hfind]
      rw [if_neg heq, replace_ok h1 h2]
      simp
    · exact list_getD_set_self _ _ _ _ hidx

/-- Witness for C4: merging the renamed, resized `symFunc2` onto `symFunc`
in `tblScan`. -/
theorem c4_add_replace_merges_witness :
    ∃ tbl2, tblScan.add no_name symFunc2 true = (tbl2, Except.ok 0) ∧
      getSym tbl2 0 = merge_record symFunc2 symFunc ∧
      (merge_record symFunc2 symFunc).name = symFunc2.name ∧
      (merge_record symFunc2 symFunc).demangled_name =
        symFunc2.demangled_name ∧
      (merge_record symFunc2 symFunc).address = symFunc2.address ∧
      (merge_record symFunc2 symFunc).«section» = symFunc2.«section» ∧
      (merge_record symFunc2 symFunc).flags = symFunc2.flags ∧
      (merge_record symFunc2 symFunc).kind = symFunc2.kind ∧
      (merge_record symFunc2 symFunc).size =
        (if symFunc.size_known ∧ symFunc2.size_known ∧
            symFunc.size ≠ symFunc2.size
         then symFunc2.size
         else if symFunc2.size_known then symFunc2.size else symFunc.size) ∧
      (merge_record symFunc2 symFunc).size_known =
        (symFunc.size_known || decide (symFunc2.size ≠ 0)) ∧
      (merge_record symFunc2 symFunc).align =
        symFunc2.align.or symFunc.align ∧
      (merge_record symFunc2 symFunc).data_kind =
        (match symFunc2.data_kind with
         | ObjDataKind.Unknown => symFunc.data_kind
         | k => k) :=
  c4_add_replace_merges tblScan no_name symFunc2 symFunc 0 (by decide)
    (by decide) (by decide) (by decide)

/-- C5: on a match, `add` with `replace = false` returns the existing index;
the three indices, the object kind and every other symbol are untouched; the
matched record changes only when the candidate's size is known and the
existing one's is not, and then only its `size` and `size_known` fields; in
particular a record that already knows its size is never changed by a
no-replace insertion, whatever the duplicate's size. -/
theorem c5_add_noreplace_frame (tbl : ObjSymbols) (iauto : String → Bool)
    (s existing : ObjSymbol) (idx : Nat)
    (hfind : tbl.add_find iauto s = Except.ok (some (idx, existing)))
    (hidx : idx < tbl.symbols.length) :
    ∃ tbl2, tbl.add iauto s false = (tbl2, Except.ok idx) ∧
      tbl2.symbols_by_address = tbl.symbols_by_address ∧
      tbl2.symbols_by_section = tbl.symbols_by_section ∧
      tbl2.symbols_by_name = tbl.symbols_by_name ∧
      tbl2.obj_kind = tbl.obj_kind ∧
      ((s.size_known && !existing.size_known) = true →
        tbl2.symbols = tbl.symbols.set idx
          { existing with size := s.size, size_known := true } ∧
        getSym tbl2 idx =
          { existing with size := s.size, size_known := true } ∧
        ∀ j, j ≠ idx → getSym tbl2 j = getSym tbl j) ∧
      ((s.size_known && !existing.size_known) = false → tbl2 = tbl) ∧
      (existing.size_known = true → tbl2 = tbl) := by
  have hex : getSym tbl idx = existing := add_find_getSym hfind
  by_cases hc : (s.size_known && !existing.size_known) = true
  · have h1 : (getSym tbl idx).address =
        ({ existing with size := s.size, size_known := true } :
          ObjSymbol).address := by
      rw [hex]
    have h2 : (getSym tbl idx).«section» =
        ({ existing with size := s.size, size_known := true } :
          ObjSymbol).«section» := by
      rw [hex]
    have hname : ¬((getSym tbl idx).name ≠
        ({ existing with size := s.size, size_known := true } :
          ObjSymbol).name) := by
      rw [hex]; simp
    refine ⟨{ tbl with symbols :=
        (tbl.symbols.set idx
          { existing with size := s.size, size_known := true }) },
      ?_, rfl, rfl, rfl, rfl, ?_, ?_, ?_⟩
    · simp only [ObjSymbols.add, hfind]
      rw [if_neg Bool.false_ne_true, if_pos hc, replace_ok h1 h2]
      rw [if_neg hname]
    · intro _
      refine ⟨rfl, list_getD_set_self _ _ _ _ hidx, ?_⟩
      intro j hj
      exact list_getD_set_ne _ _ _ _ _ hj
    · intro hfalse
      rw [hc] at hfalse
      cases hfalse
    · intro he
      simp only [Bool.and_eq_true] at hc
      rw [he] at hc
      simp at hc
  · have hcf : (s.size_known && !existing.size_known) = false :=
      Bool.not_eq_true _ ▸ (Bool.eq_false_iff.mpr hc)
    refine ⟨tbl, ?_, rfl, rfl, rfl, rfl, ?_, fun _ => rfl, fun _ => rfl⟩
    · simp only [ObjSymbols.add, hfind]
      rw [hcf]
      simp
    · intro htrue
      rw [htrue] at hcf
      cases hcf

theorem merge_record_idem (s e : ObjSymbol) :
    merge_record s (merge_record s e) = merge_record s e := by
  have hor : s.align.or (s.align.or e.align) = s.align.or e.align := by
    cases s.align <;> rfl
  have hdk : (match (motive := ObjDataKind → ObjDataKind) s.data_kind with
      | ObjDataKind.Unknown =>
        (match (motive := ObjDataKind → ObjDataKind) s.data_kind with
         | ObjDataKind.Unknown => e.data_kind
         | k => k)
      | k => k) =
      (match (motive := ObjDataKind → ObjDataKind) s.data_kind with
       | ObjDataKind.Unknown => e.data_kind
       | k => k) := by
    cases s.data_kind <;> rfl
  unfold merge_record
  by_cases hb : s.size_known
  · by_cases ha : e.size_known <;>
      by_cases hc : e.size = s.size <;>
        simp [ha, hb, hc, hor, hdk]
  · by_cases ha : e.size_known <;>
      simp [ha, hb, hor, hdk]

theorem merge_record_fresh (s : ObjSymbol) :
    merge_record s { s with size_known := decide (s.size ≠ 0) } =
      { s with size_known := decide (s.size ≠ 0) } := by
  have hdk : (match (motive := ObjDataKind → ObjDataKind) s.data_kind with
      | ObjDataKind.Unknown => s.data_kind
      | k => k) = s.data_kind := by
    cases s.data_kind <;> rfl
  unfold merge_record
  by_cases hb : s.size_known <;>
    simp [hb, Option.or_self, hdk]

theorem replace_ok_inv {tbl : ObjSymbols} {idx : Nat} {s : ObjSymbol}
    {tbl2 : ObjSymbols} (h : tbl.replace idx s = Except.ok tbl2) :
    (getSym tbl idx).address = s.address ∧
    (getSym tbl idx).«section» = s.«section» ∧
    tbl2.obj_kind = tbl.obj_kind ∧
    tbl2.symbols = tbl.symbols.set idx s ∧
    tbl2.symbols_by_address = tbl.symbols_by_address ∧
    tbl2.symbols_by_section = tbl.symbols_by_section := by
  simp only [ObjSymbols.replace] at h
  by_cases h1 : (getSym tbl idx).address = s.address
  · rw [if_pos h1] at h
    by_cases h2 : (getSym tbl idx).«section» = s.«section»
    · rw [if_pos h2] at h
      injection h with h3
      rw [← h3]
      exact ⟨h1, h2, rfl, rfl, rfl, rfl⟩
    · rw [if_neg h2] at h; cases h
  · rw [if_neg h1] at h; cases h

theorem add_direct_ok_inv {tbl : ObjSymbols} {s : ObjSymbol}
    {tbl2 : ObjSymbols} {r : Nat}
    (h : tbl.add_direct s = (tbl2, Except.ok r)) :
    r = tbl.symbols.length ∧
    tbl2.symbols = tbl.symbols ++ [s] ∧
    tbl2.obj_kind = tbl.obj_kind ∧
    tbl2.symbols_by_address =
      nested_push tbl.symbols_by_address (toU32 s.address)
        tbl.symbols.length ∧
    ((∃ si, s.«section» = some si ∧
        tbl2.symbols_by_section =
          section_nested_push tbl.symbols_by_section si (toU32 s.address)
            tbl.symbols.length) ∨
     (s.«section» = none ∧
        tbl2.symbols_by_section = tbl.symbols_by_section)) := by
  simp only [ObjSymbols.add_direct] at h
  cases hsec : s.«section» with
  | some si =>
    simp only [hsec] at h
    by_cases hn : s.name ≠ ""
    · rw [if_pos hn] at h
      obtain ⟨h1, h2⟩ := Prod.mk.injEq .. ▸ h
      injection h2 with h2
      rw [← h1, ← h2]
      exact ⟨rfl, rfl, rfl, rfl, Or.inl ⟨si, rfl, rfl⟩⟩
    · rw [if_neg hn] at h
      obtain ⟨h1, h2⟩ := Prod.mk.injEq .. ▸ h
      injection h2 with h2
      rw [← h1, ← h2]
      exact ⟨rfl, rfl, rfl, rfl, Or.inl ⟨si, rfl, rfl⟩⟩
  | none =>
    simp only [hsec] at h
    by_cases hok : s.address = 0 ∨ s.flags.is_common = true ∨
        tbl.obj_kind = ObjKind.Executable
    · rw [if_pos hok] at h
      by_cases hn : s.name ≠ ""
      · rw [if_pos hn] at h
        obtain ⟨h1, h2⟩ := Prod.mk.injEq .. ▸ h
        injection h2 with h2
        rw [← h1, ← h2]
        exact ⟨rfl, rfl, rfl, rfl, Or.inr ⟨rfl, rfl⟩⟩
      · rw [if_neg hn] at h
        obtain ⟨h1, h2⟩ := Prod.mk.injEq .. ▸ h
        injection h2 with h2
        rw [← h1, ← h2]
        exact ⟨rfl, rfl, rfl, rfl, Or.inr ⟨rfl, rfl⟩⟩
    · rw [if_neg hok] at h
      obtain ⟨_, h2⟩ := Prod.mk.injEq .. ▸ h
      cases h2

theorem find_update {bucket : List Nat} {f g : Nat → ObjSymbol}
    {p : Nat × ObjSymbol → Bool} {E : Nat} {x y : ObjSymbol}
    (hfind : (bucket.map (fun j => (j, f j))).find? p = some (E, x))
    (hg : ∀ j, j ≠ E → g j = f j) (hgE : g E = y) (hpy : p (E, y) = true) :
    (bucket.map (fun j => (j, g j))).find? p = some (E, y) := by
  induction bucket with
  | nil => cases hfind
  | cons j rest ih =>
    simp only [List.map_cons] at hfind ⊢
    cases hpj : p (j, f j) with
    | true =>
      rw [List.find?_cons_of_pos _ hpj] at hfind
      injection hfind with hfind
      obtain ⟨hj, hx⟩ := Prod.mk.injEq .. ▸ hfind
      subst hj
      rw [hgE]
      rw [List.find?_cons_of_pos _ hpy]
    | false =>
      rw [List.find?_cons_of_neg _ (by simp [hpj])] at hfind
      have hjne : j ≠ E := by
        intro hje
        have hmem := List.mem_of_find?_eq_some hfind
        obtain ⟨hfe, _⟩ := mem_map_pair hmem
        have hpsome := List.find?_some hfind
        rw [← hfe] at hpsome
        rw [hje] at hpj
        rw [hpsome] at hpj
        cases hpj
      rw [List.find?_cons_of_neg _ (by rw [hg j hjne]; simp [hpj])]
      exact ih hfind

theorem find_none_update {bucket : List Nat} {f g : Nat → ObjSymbol}
    {p : Nat × ObjSymbol → Bool}
    (hfind : (bucket.map (fun j => (j, f j))).find? p = none)
    (hg : ∀ j ∈ bucket, g j = f j) :
    (bucket.map (fun j => (j, g j))).find? p = none := by
  rw [List.find?_eq_none] at hfind ⊢
  rintro ⟨j, v⟩ hpr
  obtain ⟨hfe, hmem⟩ := mem_map_pair hpr
  rw [← hfe, hg j hmem]
  exact hfind (j, f j) (List.mem_map.mpr ⟨j, hmem, rfl⟩)

theorem find?_filter {α : Type} (l : List α) (q p : α → Bool) :
    (l.filter q).find? p = l.find? (fun a => q a && p a) := by
  induction l with
  | nil => rfl
  | cons a t ih =>
    by_cases hq : q a = true
    · rw [List.filter_cons_of_pos hq]
      by_cases hp : p a = true
      · rw [List.find?_cons_of_pos _ hp, List.find?_cons_of_pos _ (by simp [hq, hp])]
      · rw [List.find?_cons_of_neg _ (by simp [hp]),
          List.find?_cons_of_neg _ (by simp [hq, hp]), ih]
    · rw [List.filter_cons_of_neg (by simp [hq]),
        List.find?_cons_of_neg _ (by simp [hq]), ih]

theorem find?_middle {α : Type} (pre suf : List α) (x : α) (p : α → Bool)
    (hpre : ∀ a ∈ pre, p a = false) (hx : p x = true) :
    (pre ++ x :: suf).find? p = some x := by
  rw [List.find?_append]
  have hnone : pre.find? p = none := by
    rw [List.find?_eq_none]
    intro a ha
    simp [hpre a ha]
  rw [hnone, List.find?_cons_of_pos _ hx]
  rfl

theorem keys_sorted_cons_cons (a b : Nat × List Nat)
    (r : List (Nat × List Nat)) :
    keys_sorted (a :: b :: r) = (decide (a.1 < b.1) && keys_sorted (b :: r)) :=
  rfl

theorem keys_sorted_tail {a : Nat × List Nat} {rest : List (Nat × List Nat)}
    (h : keys_sorted (a :: rest) = true) : keys_sorted rest = true := by
  cases rest with
  | nil => rfl
  | cons b r =>
    rw [keys_sorted_cons_cons, Bool.and_eq_true] at h
    exact h.2

theorem keys_sorted_head_lt :
    ∀ (rest : List (Nat × List Nat)) (k' : Nat) (vs : List Nat),
      keys_sorted ((k', vs) :: rest) = true → ∀ p ∈ rest, k' < p.1 := by
  intro rest
  induction rest with
  | nil => intro k' vs _ p hp; cases hp
  | cons b r ih =>
    intro k' vs h p hp
    obtain ⟨bk, bv⟩ := b
    rw [keys_sorted_cons_cons, Bool.and_eq_true, decide_eq_true_eq] at h
    cases hp with
    | head => exact h.1
    | tail _ hp2 =>
      exact Nat.lt_trans h.1 (ih bk bv h.2 p hp2)

theorem nested_lookup_cons_self (k : Nat) (vs : List Nat)
    (rest : List (Nat × List Nat)) :
    nested_lookup ((k, vs) :: rest) k = vs := by
  unfold nested_lookup
  rw [List.find?_cons_of_pos _ (by simp)]

theorem nested_lookup_cons_ne {k k' : Nat} (vs : List Nat)
    (rest : List (Nat × List Nat)) (h : k' ≠ k) :
    nested_lookup ((k', vs) :: rest) k = nested_lookup rest k := by
  unfold nested_lookup
  rw [List.find?_cons_of_neg _ (by simp [h])]

theorem nested_lookup_absent (m : List (Nat × List Nat)) (k : Nat)
    (h : ∀ p ∈ m, p.1 ≠ k) : nested_lookup m k = [] := by
  unfold nested_lookup
  have hnone : m.find? (fun p => decide (p.1 = k)) = none := by
    rw [List.find?_eq_none]
    intro p hp
    simp [h p hp]
  rw [hnone]

theorem nested_lookup_push_self :
    ∀ (m : List (Nat × List Nat)) (k v : Nat), keys_sorted m = true →
      nested_lookup (nested_push m k v) k = nested_lookup m k ++ [v] := by
  intro m
  induction m with
  | nil =>
    intro k v _
    simp only [nested_push]
    rw [nested_lookup_cons_self]
    rfl
  | cons a rest ih =>
    intro k v hs
    obtain ⟨k', vs⟩ := a
    by_cases h1 : k < k'
    · simp only [nested_push, if_pos h1]
      rw [nested_lookup_cons_self]
      have habs : nested_lookup ((k', vs) :: rest) k = [] := by
        apply nested_lookup_absent
        intro p hp
        cases hp with
        | head => omega
        | tail _ hp2 =>
          have := keys_sorted_head_lt rest k' vs hs p hp2
          omega
      rw [habs]
      rfl
    · by_cases h2 : k = k'
      · subst h2
        simp only [nested_push, if_neg h1, eq_self_iff_true, if_true]
        rw [nested_lookup_cons_self, nested_lookup_cons_self]
      · simp only [nested_push, if_neg h1, if_neg h2]
        rw [nested_lookup_cons_ne _ _ (fun e => h2 e.symm),
          nested_lookup_cons_ne _ _ (fun e => h2 e.symm)]
        exact ih k v (keys_sorted_tail hs)

theorem bucket_indices_cons (a : Nat × List Nat)
    (rest : List (Nat × List Nat)) :
    bucket_indices (a :: rest) = a.2 ++ bucket_indices rest := by
  unfold bucket_indices
  simp

theorem nested_push_flatten :
    ∀ (m : List (Nat × List Nat)) (k v : Nat),
      ∃ pre suf, bucket_indices m = pre ++ suf ∧
        bucket_indices (nested_push m k v) = pre ++ v :: suf := by
  intro m
  induction m with
  | nil =>
    intro k v
    refine ⟨[], [], rfl, ?_⟩
    simp only [nested_push]
    rw [bucket_indices_cons]
    rfl
  | cons a rest ih =>
    intro k v
    obtain ⟨k', vs⟩ := a
    by_cases h1 : k < k'
    · refine ⟨[], bucket_indices ((k', vs) :: rest), rfl, ?_⟩
      simp only [nested_push, if_pos h1]
      rw [bucket_indices_cons]
      rfl
    · by_cases h2 : k = k'
      · refine ⟨vs, bucket_indices rest, ?_, ?_⟩
        · rw [bucket_indices_cons]
        · simp only [nested_push, if_neg h1, if_pos h2]
          rw [bucket_indices_cons]
          simp
      · obtain ⟨pre, suf, he1, he2⟩ := ih k v
        refine ⟨vs ++ pre, suf, ?_, ?_⟩
        · rw [bucket_indices_cons, he1, List.append_assoc]
        · simp only [nested_push, if_neg h1, if_neg h2]
          rw [bucket_indices_cons, he2, List.append_assoc]

theorem section_resize_length_gt (secs : List (List (Nat × List Nat)))
    (si : Nat) : si < (section_resize secs si).length := by
  unfold section_resize
  split
  · assumption
  · rename_i h
    rw [List.length_append, List.length_replicate]
    omega

theorem section_resize_getD (secs : List (List (Nat × List Nat)))
    (si : Nat) : (section_resize secs si).getD si [] = secs.getD si [] := by
  unfold section_resize
  split
  · rfl
  · rename_i h
    have h2 : secs.length ≤ si := Nat.le_of_not_lt h
    rw [List.getD, List.getD, List.get?_eq_getElem?, List.get?_eq_getElem?]
    rw [List.getElem?_append_right h2, List.getElem?_eq_none h2]
    rw [List.getElem?_replicate]
    have h3 : si - secs.length < si + 1 - secs.length := by omega
    rw [if_pos h3]
    rfl

theorem section_nested_push_getD (secs : List (List (Nat × List Nat)))
    (si k v : Nat) :
    (section_nested_push secs si k v).getD si [] =
      nested_push (secs.getD si []) k v := by
  simp only [section_nested_push]
  rw [list_getD_set_self _ _ _ _ (section_resize_length_gt secs si)]
  rw [section_resize_getD]

theorem getD_mem_or_nil {α : Type} (l : List α) (i : Nat) (d : α) :
    l.getD i d ∈ l ∨ l.getD i d = d := by
  by_cases h : i < l.length
  · left
    rw [List.getD, List.get?_eq_getElem?, List.getElem?_eq_getElem h]
    exact List.getElem_mem h
  · right
    rw [List.getD, List.get?_eq_getElem?,
      List.getElem?_eq_none (Nat.le_of_not_lt h)]
    rfl

theorem nested_lookup_subset (m : List (Nat × List Nat)) (k : Nat) :
    ∀ i ∈ nested_lookup m k, i ∈ bucket_indices m := by
  intro i hi
  unfold nested_lookup at hi
  cases hf : m.find? (fun p => decide (p.1 = k)) with
  | none => rw [hf] at hi; cases hi
  | some p =>
    rw [hf] at hi
    have hmem := List.mem_of_find?_eq_some hf
    unfold bucket_indices
    exact List.mem_flatten.mpr ⟨p.2, List.mem_map.mpr ⟨p, hmem, rfl⟩, hi⟩

theorem wf_idx_unpack {tbl : ObjSymbols} (h : wf_idx tbl = true) :
    (∀ i ∈ bucket_indices tbl.symbols_by_address,
      i < tbl.symbols.length) ∧
    keys_sorted tbl.symbols_by_address = true ∧
    ∀ sec ∈ tbl.symbols_by_section,
      (∀ i ∈ bucket_indices sec, i < tbl.symbols.length) ∧
      keys_sorted sec = true := by
  unfold wf_idx at h
  simp only [Bool.and_eq_true, List.all_eq_true, decide_eq_true_eq] at h
  obtain ⟨⟨h1, h2⟩, h3⟩ := h
  refine ⟨h1, h2, ?_⟩
  intro sec hsec
  have h4 := h3 sec hsec
  simp only [Bool.and_eq_true, List.all_eq_true, decide_eq_true_eq] at h4
  exact h4

theorem add_find_sec_eq (tbl : ObjSymbols) (iauto : String → Bool)
    (s : ObjSymbol) {si : Nat} (hsec : s.«section» = some si) :
    tbl.add_find iauto s = Except.ok
      (((nested_lookup (tbl.symbols_by_section.getD si [])
          (toU32 s.address)).map (fun j => (j, getSym tbl j))).find?
        (fun p => decide (p.2.kind = s.kind) ||
          (decide (p.2.kind = ObjSymbolKind.Unknown) && iauto p.2.name))) := by
  simp only [ObjSymbols.add_find, hsec, ObjSymbols.at_section_address]

theorem add_find_abs_eq (tbl : ObjSymbols) (iauto : String → Bool)
    (s : ObjSymbol) (hsec : s.«section» = none)
    (hexe : tbl.obj_kind = ObjKind.Executable) :
    tbl.add_find iauto s = Except.ok
      (((bucket_indices tbl.symbols_by_address).map
          (fun j => (j, getSym tbl j))).find?
        (fun p => p.2.«section».isNone && decide (p.2.name = s.name))) := by
  simp only [ObjSymbols.add_find, hsec, if_pos hexe, ObjSymbols.iter_abs]
  rw [find?_filter]

theorem add_find_abs_exec {tbl : ObjSymbols} {iauto : String → Bool}
    {s : ObjSymbol} {o : Option (Nat × ObjSymbol)}
    (hsec : s.«section» = none)
    (h : tbl.add_find iauto s = Except.ok o) :
    tbl.obj_kind = ObjKind.Executable := by
  simp only [ObjSymbols.add_find, hsec] at h
  by_cases he : tbl.obj_kind = ObjKind.Executable
  · exact he
  · rw [if_neg he] at h; cases h

/-- Witness for C5: no-replace insertion of an unknown-size duplicate onto
the sized `symFunc` leaves the table identical (size monotonicity). -/
theorem c5_add_noreplace_frame_witness :
    ∃ tbl2, tblScan.add no_name symFuncNoSize false =
        (tbl2, Except.ok 0) ∧
      tbl2.symbols_by_address = tblScan.symbols_by_address ∧
      tbl2.symbols_by_section = tblScan.symbols_by_section ∧
      tbl2.symbols_by_name = tblScan.symbols_by_name ∧
      tbl2.obj_kind = tblScan.obj_kind ∧
      ((symFuncNoSize.size_known && !symFunc.size_known) = true →
        tbl2.symbols = tblScan.symbols.set 0
          { symFunc with size := symFuncNoSize.size, size_known := true } ∧
        getSym tbl2 0 =
          { symFunc with size := symFuncNoSize.size, size_known := true } ∧
        ∀ j, j ≠ 0 → getSym tbl2 j = getSym tblScan j) ∧
      ((symFuncNoSize.size_known && !symFunc.size_known) = false →
        tbl2 = tblScan) ∧
      (symFunc.size_known = true → tbl2 = tblScan) :=
  c5_add_noreplace_frame tblScan no_name symFuncNoSize symFunc 0 (by decide)
    (by decide)

/-- C8: merge-insert is idempotent under `replace = true`: whenever
`add(s, true)` succeeds on a table with well-formed indices (every stored
arena index in bounds, map keys ascending — as every table built by the
module's own operations is), running the identical insertion again on the
resulting table succeeds, returns the same index, and leaves the table
exactly as it was after the first call. -/
theorem c8_add_replace_idempotent (tbl tbl2 : ObjSymbols)
    (iauto : String → Bool) (s : ObjSymbol) (i : Nat)
    (hwf : wf_idx tbl = true)
    (h1 : tbl.add iauto s true = (tbl2, Except.ok i)) :
    tbl2.add iauto s true = (tbl2, Except.ok i) := by
  obtain ⟨hbound, hsorted, hsecwf⟩ := wf_idx_unpack hwf
  cases hf : tbl.add_find iauto s with
  | error e =>
    have hstep : tbl.add iauto s true = (tbl, Except.error e) := by
      simp only [ObjSymbols.add, hf]
    rw [hstep] at h1
    obtain ⟨_, h2⟩ := Prod.mk.injEq .. ▸ h1
    cases h2
  | ok opt =>
    cases opt with
    | some pr =>
      obtain ⟨E, ex⟩ := pr
      have hex : getSym tbl E = ex := add_find_getSym hf
      by_cases heq : ex = merge_record s ex
      · have hstep : tbl.add iauto s true = (tbl, Except.ok E) := by
          simp only [ObjSymbols.add, hf]
          rw [if_pos heq]
          simp
        rw [hstep] at h1
        obtain ⟨hT, h2⟩ := Prod.mk.injEq .. ▸ h1
        injection h2 with h2
        subst hT
        subst h2
        have hstep2 : tbl.add iauto s true = (tbl, Except.ok E) := by
          simp only [ObjSymbols.add, hf]
          rw [if_pos heq]
          simp
        exact hstep2
      · cases hrep : tbl.replace E (merge_record s ex) with
        | error e =>
          have hstep : tbl.add iauto s true = (tbl, Except.error e) := by
            simp only [ObjSymbols.add, hf]
            rw [if_neg heq, hrep]
            simp
          rw [hstep] at h1
          obtain ⟨_, h2⟩ := Prod.mk.injEq .. ▸ h1
          cases h2
        | ok tblR =>
          have hstep : tbl.add iauto s true = (tblR, Except.ok E) := by
            simp only [ObjSymbols.add, hf]
            rw [if_neg heq, hrep]
            simp
          rw [hstep] at h1
          obtain ⟨hT, h2⟩ := Prod.mk.injEq .. ▸ h1
          injection h2 with h2
          subst hT
          subst h2
          obtain ⟨hA, hS, hK, hSy, hBA, hBS⟩ := replace_ok_inv hrep
          cases hsec : s.«section» with
          | some si =>
            have hfind : ((nested_lookup
                (tbl.symbols_by_section.getD si [])
                (toU32 s.address)).map
                  (fun j => (j, getSym tbl j))).find?
                (fun p => decide (p.2.kind = s.kind) ||
                  (decide (p.2.kind = ObjSymbolKind.Unknown) &&
                    iauto p.2.name)) = some (E, ex) := by
              have hcomb := (add_find_sec_eq tbl iauto s hsec).symm.trans hf
              injection hcomb
            have hEb : E < tbl.symbols.length := by
              have hmem := List.mem_of_find?_eq_some hfind
              obtain ⟨_, hEmem⟩ := mem_map_pair hmem
              have hsub := nested_lookup_subset _ _ E hEmem
              rcases getD_mem_or_nil tbl.symbols_by_section si [] with
                hm | hm
              · exact (hsecwf _ hm).1 E hsub
              · rw [hm] at hsub
                simp [bucket_indices] at hsub
            have hg : ∀ j, j ≠ E → getSym tblR j = getSym tbl j := by
              intro j hj
              unfold getSym
              rw [hSy]
              exact list_getD_set_ne _ _ _ _ _ hj
            have hgE : getSym tblR E = merge_record s ex := by
              unfold getSym
              rw [hSy]
              exact list_getD_set_self _ _ _ _ hEb
            have hfu := find_update hfind hg hgE (by simp [merge_record])
            have hf2 : tblR.add_find iauto s =
                Except.ok (some (E, merge_record s ex)) := by
              rw [add_find_sec_eq tblR iauto s hsec, hBS, hfu]
            simp only [ObjSymbols.add, hf2]
            rw [if_pos (merge_record_idem s ex).symm]
            simp
          | none =>
            have hexe := add_find_abs_exec hsec hf
            have hfind : ((bucket_indices tbl.symbols_by_address).map
                (fun j => (j, getSym tbl j))).find?
                (fun p => p.2.«section».isNone &&
                  decide (p.2.name = s.name)) = some (E, ex) := by
              have hcomb := (add_find_abs_eq tbl iauto s hsec hexe).symm.trans
                hf
              injection hcomb
            have hEb : E < tbl.symbols.length := by
              have hmem := List.mem_of_find?_eq_some hfind
              obtain ⟨_, hEmem⟩ := mem_map_pair hmem
              exact hbound E hEmem
            have hg : ∀ j, j ≠ E → getSym tblR j = getSym tbl j := by
              intro j hj
              unfold getSym
              rw [hSy]
              exact list_getD_set_ne _ _ _ _ _ hj
            have hgE : getSym tblR E = merge_record s ex := by
              unfold getSym
              rw [hSy]
              exact list_getD_set_self _ _ _ _ hEb
            have hpy : ((merge_record s ex).«section».isNone &&
                decide ((merge_record s ex).name = s.name)) = true := by
              simp [merge_record, hsec]
            have hfu := find_update hfind hg hgE hpy
            have hf2 : tblR.add_find iauto s =
                Except.ok (some (E, merge_record s ex)) := by
              rw [add_find_abs_eq tblR iauto s hsec (hK.trans hexe), hBA, hfu]
            simp only [ObjSymbols.add, hf2]
            rw [if_pos (merge_record_idem s ex).symm]
            simp
    | none =>
      rcases hdef : tbl.add_direct
          { s with size_known := decide (s.size ≠ 0) } with ⟨T2, res⟩
      cases res with
      | error e =>
        have hstep : tbl.add iauto s true = (T2, Except.error e) := by
          simp only [ObjSymbols.add, hf]
          rw [hdef]
        rw [hstep] at h1
        obtain ⟨_, h2⟩ := Prod.mk.injEq .. ▸ h1
        cases h2
      | ok r0 =>
        have hstep : tbl.add iauto s true =
            (T2, Except.ok tbl.symbols.length) := by
          simp only [ObjSymbols.add, hf]
          rw [hdef]
        rw [hstep] at h1
        obtain ⟨hT, h2⟩ := Prod.mk.injEq .. ▸ h1
        injection h2 with h2
        subst hT
        subst h2
        obtain ⟨hr0, hSy, hK, hBA, hor⟩ := add_direct_ok_inv hdef
        have hgj : ∀ j, j < tbl.symbols.length →
            getSym T2 j = getSym tbl j := by
          intro j hj
          unfold getSym
          rw [hSy]
          exact list_getD_append_left _ _ _ _ hj
        have hgL : getSym T2 tbl.symbols.length =
            { s with size_known := decide (s.size ≠ 0) } := by
          unfold getSym
          rw [hSy]
          exact list_getD_append_self _ _ _
        cases hsec : s.«section» with
        | some si =>
          have hbsx : T2.symbols_by_section =
              section_nested_push tbl.symbols_by_section si
                (toU32 s.address) tbl.symbols.length := by
            rcases hor with ⟨si2, hsi2, hbs⟩ | ⟨hnone, _⟩
            · simp only [hsec, Option.some.injEq] at hsi2
              subst hsi2
              exact hbs
            · simp only [hsec] at hnone
              cases hnone
          have hfnone : ((nested_lookup
              (tbl.symbols_by_section.getD si [])
              (toU32 s.address)).map
                (fun j => (j, getSym tbl j))).find?
              (fun p => decide (p.2.kind = s.kind) ||
                (decide (p.2.kind = ObjSymbolKind.Unknown) &&
                  iauto p.2.name)) = none := by
            have hcomb := (add_find_sec_eq tbl iauto s hsec).symm.trans hf
            injection hcomb
          have hsortb : keys_sorted
              (tbl.symbols_by_section.getD si []) = true := by
            rcases getD_mem_or_nil tbl.symbols_by_section si [] with hm | hm
            · exact (hsecwf _ hm).2
            · rw [hm]; rfl
          have hboundb : ∀ j ∈ nested_lookup
              (tbl.symbols_by_section.getD si []) (toU32 s.address),
              j < tbl.symbols.length := by
            intro j hj
            have hsub := nested_lookup_subset _ _ j hj
            rcases getD_mem_or_nil tbl.symbols_by_section si [] with hm | hm
            · exact (hsecwf _ hm).1 j hsub
            · rw [hm] at hsub
              simp [bucket_indices] at hsub
          have hbucket2 : nested_lookup
              (T2.symbols_by_section.getD si []) (toU32 s.address) =
              nested_lookup (tbl.symbols_by_section.getD si [])
                (toU32 s.address) ++ [tbl.symbols.length] := by
            rw [hbsx, section_nested_push_getD,
              nested_lookup_push_self _ _ _ hsortb]
          have hnone2 : ((nested_lookup
              (tbl.symbols_by_section.getD si [])
              (toU32 s.address)).map
                (fun j => (j, getSym T2 j))).find?
              (fun p => decide (p.2.kind = s.kind) ||
                (decide (p.2.kind = ObjSymbolKind.Unknown) &&
                  iauto p.2.name)) = none :=
            find_none_update hfnone (fun j hj => hgj j (hboundb j hj))
          have hfind2 : ((nested_lookup
              (T2.symbols_by_section.getD si [])
              (toU32 s.address)).map
                (fun j => (j, getSym T2 j))).find?
              (fun p => decide (p.2.kind = s.kind) ||
                (decide (p.2.kind = ObjSymbolKind.Unknown) &&
                  iauto p.2.name)) =
              some (tbl.symbols.length,
                { s with size_known := decide (s.size ≠ 0) }) := by
            rw [hbucket2, List.map_append, List.find?_append, hnone2]
            simp only [List.map_cons, List.map_nil]
            rw [hgL]
            rw [List.find?_cons_of_pos _ (by simp)]
            rfl
          have hf2 : T2.add_find iauto s = Except.ok
              (some (tbl.symbols.length,
                { s with size_known := decide (s.size ≠ 0) })) := by
            rw [add_find_sec_eq T2 iauto s hsec, hfind2]
          simp only [ObjSymbols.add, hf2]
          rw [if_pos (merge_record_fresh s).symm]
          simp
        | none =>
          have hexe := add_find_abs_exec hsec hf
          have hbax : T2.symbols_by_address =
              nested_push tbl.symbols_by_address (toU32 s.address)
                tbl.symbols.length := by
            simpa using hBA
          have hfnone : ((bucket_indices tbl.symbols_by_address).map
              (fun j => (j, getSym tbl j))).find?
              (fun p => p.2.«section».isNone &&
                decide (p.2.name = s.name)) = none := by
            have hcomb := (add_find_abs_eq tbl iauto s hsec hexe).symm.trans
              hf
            injection hcomb
          obtain ⟨pre, suf, he1, he2⟩ := nested_push_flatten
            tbl.symbols_by_address (toU32 s.address) tbl.symbols.length
          have hfind2 : ((bucket_indices T2.symbols_by_address).map
              (fun j => (j, getSym T2 j))).find?
              (fun p => p.2.«section».isNone &&
                decide (p.2.name = s.name)) =
              some (tbl.symbols.length,
                { s with size_known := decide (s.size ≠ 0) }) := by
            rw [hbax, he2, List.map_append, List.map_cons, hgL]
            apply find?_middle
            · rintro ⟨j, v⟩ hjv
              obtain ⟨hgv, hjpre⟩ := mem_map_pair hjv
              have hjm : j ∈ bucket_indices tbl.symbols_by_address := by
                rw [he1]
                exact List.mem_append_left _ hjpre
              have hjb : j < tbl.symbols.length := hbound j hjm
              rw [← hgv, hgj j hjb]
              have hall := List.find?_eq_none.mp hfnone (j, getSym tbl j)
                (List.mem_map.mpr ⟨j, hjm, rfl⟩)
              exact Bool.not_eq_true _ ▸ (Bool.eq_false_iff.mpr hall)
            · simp [hsec]
          have hf2 : T2.add_find iauto s = Except.ok
              (some (tbl.symbols.length,
                { s with size_known := decide (s.size ≠ 0) })) := by
            rw [add_find_abs_eq T2 iauto s hsec (hK.trans hexe), hfind2]
          simp only [ObjSymbols.add, hf2]
          rw [if_pos (merge_record_fresh s).symm]
          simp

/-- Witness for C8: re-running the successful merge-insertion of `symFunc2`
into `tblScan` on the merged table is a no-op returning the same index. -/
theorem c8_add_replace_idempotent_witness :
    tblScan2.add no_name symFunc2 true = (tblScan2, Except.ok 0) :=
  c8_add_replace_idempotent tblScan tblScan2 no_name symFunc2 0 (by decide)
    (by decide)
